import Mathlib

/-!
# Verification of the student-management-system record core

Shallow embedding of the data/business core shared by the CLI front-end
(`student_management_system.py`) and the GUI front-end (`student_gui.py`):
the in-memory record store, its validators, grade computation, statistics,
and the CSV persistence round-trip.

Records are held exactly as in the source: a list of dictionaries with the
four string fields `roll_number`, `name`, `age`, `marks`.  Numeric values
are modelled exactly as rationals (`ℚ`); Python `float` rounding beyond
double precision and scientific-notation rendering are outside the model,
as are non-ASCII case conversions (`str.lower`/`str.title` are modelled on
ASCII letters, which is all the source's data uses).
-/

namespace StudentMS

/-- One student record: the dictionary
`{'roll_number': ..., 'name': ..., 'age': ..., 'marks': ...}` built by
`add_student` / `StudentDialog.save_student`.  All four values are strings,
as in the source (`List[Dict[str, str]]`). -/
structure Student where
  roll_number : String
  name : String
  age : String
  marks : String
deriving DecidableEq, Repr

/-! ## Python string helpers (ASCII model) -/

/-- ASCII lowercasing of one character. -/
def charLower (c : Char) : Char :=
  if 'A' ≤ c ∧ c ≤ 'Z' then Char.ofNat (c.toNat + 32) else c

/-- ASCII uppercasing of one character. -/
def charUpper (c : Char) : Char :=
  if 'a' ≤ c ∧ c ≤ 'z' then Char.ofNat (c.toNat - 32) else c

/-- Python `str.lower` on ASCII letters (the model of `lower()`). -/
def pyLower (s : String) : String := ⟨s.data.map charLower⟩

/-- The whitespace stripped by Python's `str.strip()`. -/
def isSpaceChar (c : Char) : Bool :=
  c = ' ' ∨ c = '\t' ∨ c = '\n' ∨ c = '\r'

/-- Python `str.strip()`: leading and trailing whitespace removed. -/
def pyStrip (s : String) : String :=
  ⟨((s.data.dropWhile isSpaceChar).reverse.dropWhile isSpaceChar).reverse⟩

/-- One step of Python `str.title`: the first argument records whether the
previous character was alphabetic. -/
def titleAux : Bool → List Char → List Char
  | _, [] => []
  | prevAlpha, c :: cs =>
    (if c.isAlpha then (if prevAlpha then charLower c else charUpper c) else c)
      :: titleAux c.isAlpha cs

/-- Python `str.title` (ASCII model): each alphabetic run starts uppercase and
continues lowercase. -/
def pyTitle (s : String) : String := ⟨titleAux false s.data⟩

/-! ## Numeric parsing: `int(...)` and `float(...)` on plain decimal literals -/

/-- Decimal value of a digit list (most significant first). -/
def digitsVal (ds : List Char) : Nat :=
  ds.foldl (fun a c => 10 * a + (c.toNat - '0'.toNat)) 0

/-- Python `int(s)` for an optional sign followed by decimal digits
(the forms the program's stripped inputs take). -/
def parseInt (s : String) : Option Int :=
  let core : List Char → Option Int := fun ds =>
    if ds = [] ∨ ¬ ds.all (·.isDigit) then none else some (digitsVal ds)
  match s.data with
  | '-' :: ds => (core ds).map (fun n => -n)
  | '+' :: ds => core ds
  | ds => core ds

/-- The integer and fraction digit lists of a decimal literal, with its sign:
`float(s)` accepts `[sign] digits [. digits]` with at least one digit.
(Exponent, `inf` and `nan` literals are outside the model.) -/
def parseFloatParts (s : String) : Option (Bool × List Char × List Char) :=
  let core : List Char → Option (List Char × List Char) := fun l =>
    match l.span (·.isDigit) with
    | (ds, []) => if ds = [] then none else some (ds, [])
    | (ds, '.' :: rest) =>
        if rest.all (·.isDigit) ∧ (ds ≠ [] ∨ rest ≠ []) then some (ds, rest)
        else none
    | _ => none
  match s.data with
  | '-' :: l => (core l).map (fun p => (true, p))
  | '+' :: l => (core l).map (fun p => (false, p))
  | l => (core l).map (fun p => (false, p))

/-- An exact decimal number `num / 10 ^ exp`: the model of a Python `float`
holding a parsed decimal literal.  (Python floats are binary doubles; for the
literals this program handles within double precision the decimal value is
the observable value, and comparisons below are value comparisons.) -/
structure Decimal where
  num : Int
  exp : Nat
deriving DecidableEq, Repr

namespace Decimal

/-- The rational value of a decimal. -/
def toRat (d : Decimal) : ℚ := (d.num : ℚ) / (10 : ℚ) ^ d.exp

/-- Value comparison `a ≤ b`, by cross-multiplication. -/
def le (a b : Decimal) : Prop := a.num * 10 ^ b.exp ≤ b.num * 10 ^ a.exp

/-- Value comparison `a < b`, by cross-multiplication. -/
def lt (a b : Decimal) : Prop := a.num * 10 ^ b.exp < b.num * 10 ^ a.exp

instance (a b : Decimal) : Decidable (le a b) := Int.decLe _ _

instance (a b : Decimal) : Decidable (lt a b) := Int.decLt _ _

/-- The integer `n` as a decimal. -/
def ofInt (n : Int) : Decimal := ⟨n, 0⟩

/-- Exact addition (denominators multiply; the value is the sum). -/
def add (a b : Decimal) : Decimal :=
  ⟨a.num * 10 ^ b.exp + b.num * 10 ^ a.exp, a.exp + b.exp⟩

/-- Python `max` of two floats: the second iff it is strictly greater. -/
def vmax (a b : Decimal) : Decimal := if lt a b then b else a

/-- Python `min` of two floats: the second iff it is strictly smaller. -/
def vmin (a b : Decimal) : Decimal := if lt b a then b else a

end Decimal

/-- The exact decimal value of the parsed literal: the digits of the integer
and fraction parts as one integer over `10 ^ (number of fraction digits)`. -/
def partsVal (p : Bool × List Char × List Char) : Decimal :=
  let n : Int := digitsVal (p.2.1 ++ p.2.2)
  ⟨if p.1 then -n else n, p.2.2.length⟩

/-- Python `float(s)` for plain decimal literals, as an exact decimal. -/
def parseFloat (s : String) : Option Decimal :=
  (parseFloatParts s).map partsVal

/-- Leading zeros stripped, `"0"` if nothing is left. -/
def stripLeadingZeros (l : List Char) : List Char :=
  match l.dropWhile (· = '0') with
  | [] => ['0']
  | r => r

/-- Trailing zeros stripped, `"0"` if nothing is left. -/
def stripTrailingZeros (l : List Char) : List Char :=
  match (l.reverse.dropWhile (· = '0')).reverse with
  | [] => ['0']
  | r => r

/-- Python `str(float(s))` for a plain decimal literal `s` within double
precision: canonical sign, integer part without leading zeros, fraction
without trailing zeros but never empty (`str(85.0) = "85.0"`). -/
def pyFloatStr (s : String) : Option String :=
  (parseFloatParts s).map fun p =>
    (if p.1 then "-" else "") ++ ⟨stripLeadingZeros p.2.1⟩ ++ "." ++ ⟨stripTrailingZeros p.2.2⟩

/-! ## Validators (`student_management_system.py` lines 55–81) -/

/-- The uniqueness check `validate_roll_number`: true iff no existing record has exactly this
`roll_number` (case-sensitive `==`, line 57). -/
def validate_roll_number (students : List Student) (roll : String) : Bool :=
  ¬ students.any (fun s => s.roll_number = roll)

/-- Age validation `validate_age`: `int(age_str)`, `None` unless the value is in `[1, 150]`. -/
def validate_age (ageStr : String) : Option Int :=
  (parseInt ageStr).bind fun a => if a < 1 ∨ 150 < a then none else some a

/-- Marks validation `validate_marks`: `float(marks_str)`, `None` unless the value is in `[0, 100]`. -/
def validate_marks (marksStr : String) : Option Decimal :=
  (parseFloat marksStr).bind fun m =>
    if Decimal.lt m (.ofInt 0) ∨ Decimal.lt (.ofInt 100) m then none else some m

/-- Name validation `validate_name`: the stripped name is non-empty and at least 2 characters. -/
def validate_name (name : String) : Bool :=
  pyStrip name ≠ "" ∧ (pyStrip name).length ≥ 2

/-- Grade computation `calculate_grade` (identical in `StudentManagementSystem` lines 184–199 and
`StudentGUI` lines 419–434): inclusive lower-bound thresholds, highest first.
`marks >= t` on Python floats is the value comparison `Decimal.le (ofInt t)`. -/
def calculate_grade (marks : Decimal) : String :=
  if Decimal.le (.ofInt 90) marks then "A+"
  else if Decimal.le (.ofInt 80) marks then "A"
  else if Decimal.le (.ofInt 70) marks then "B+"
  else if Decimal.le (.ofInt 60) marks then "B"
  else if Decimal.le (.ofInt 50) marks then "C"
  else if Decimal.le (.ofInt 40) marks then "D"
  else "F"

/-! ## The add operation

`add_student` (CLI, lines 83–136) prompts each field in a retry loop; as an
operation on one candidate per field it checks, in order: non-empty roll,
unique roll, valid name, valid age, valid marks, and only then appends the
normalized record and saves.  The model takes the stripped input strings and
returns the (possibly unchanged) store together with the failure, if any. -/

/-- The failure reported by the add operation. -/
inductive AddError where
  | emptyRoll
  | duplicateRoll
  | invalidName
  | invalidAge
  | invalidMarks
deriving DecidableEq, Repr

/-- The record built at lines 127–132: name title-cased, age and marks as the
string forms of their validated values. -/
def mkStudent (roll name : String) (age : Int) (marksStr : String) : Student :=
  ⟨roll, pyTitle name, toString age, ((pyFloatStr marksStr).getD "")⟩

/-- The CLI add operation on one candidate per field (store unchanged on any
failure; on success the new record is appended and the store saved). -/
def add_student (students : List Student) (roll name ageStr marksStr : String) :
    List Student × Option AddError :=
  if roll = "" then (students, some .emptyRoll)
  else if ¬ validate_roll_number students roll then (students, some .duplicateRoll)
  else if ¬ validate_name name then (students, some .invalidName)
  else
    match validate_age ageStr with
    | none => (students, some .invalidAge)
    | some age =>
      match validate_marks marksStr with
      | none => (students, some .invalidMarks)
      | some _ => (students ++ [mkStudent roll name age marksStr], none)

/-- The spec's `grade_for` threshold table (§4.1), written over exact
rational marks values exactly as the spec words it: inclusive lower bounds,
evaluated highest-first.  Stated separately from `calculate_grade` so the
code's decimal comparisons can be proved to refine it. -/
def grade_for_spec (x : ℚ) : String :=
  if 90 ≤ x then "A+"
  else if 80 ≤ x then "A"
  else if 70 ≤ x then "B+"
  else if 60 ≤ x then "B"
  else if 50 ≤ x then "C"
  else if 40 ≤ x then "D"
  else "F"

/-! ## Search (`search_student`, lines 201–249) -/

/-- Search by roll number: exact match after lowercasing both sides (line 231). -/
def search_by_roll (students : List Student) (term : String) : List Student :=
  students.filter (fun s => pyLower s.roll_number = pyLower term)

/-! ## Delete (`delete_student`, lines 342–388)

The loop at lines 360–364 finds the first record whose `roll_number` equals
the argument with `==` (case-sensitive); confirmed deletion removes that
index.  The model returns the new store and the removed record. -/

/-- Remove the first exactly-matching record; `(students, none)` when no
record matches (the NotFound report, store unchanged). -/
def delete_student : List Student → String → List Student × Option Student
  | [], _ => ([], none)
  | s :: rest, roll =>
    if s.roll_number = roll then (rest, some s)
    else (s :: (delete_student rest roll).1, (delete_student rest roll).2)

/-! ## Update (`update_student`, lines 251–340)

The operation finds the target by case-sensitive `==` on `roll_number`
(lines 268–271), then runs one input loop per chosen field.  Each loop
consumes candidate inputs until one is accepted; for age and marks a blank
input keeps the current value; an invalid input re-prompts.  A loop whose
input script runs out models an interaction that never completes, hence the
outer `Option`. -/

/-- Which fields the user chose to update (menu options 1–4). -/
inductive UpdateChoice where
  | name
  | age
  | marks
  | all
deriving DecidableEq, Repr

/-- The name loop (lines 298–308): skip inputs until one passes
`validate_name`; the accepted name is stored title-cased.  (A blank input
re-prompts: the name cannot be skipped.) -/
def nameLoop : List String → Option String
  | [] => none
  | s :: rest => if validate_name s then some (pyTitle s) else nameLoop rest

/-- The age loop (lines 310–321): a blank input keeps the current value
(`some none`), a valid input stores `str(age)`, an invalid one re-prompts. -/
def ageLoop : List String → Option (Option String)
  | [] => none
  | s :: rest =>
    if s = "" then some none
    else
      match validate_age s with
      | some a => some (some (toString a))
      | none => ageLoop rest

/-- The marks loop (lines 323–334): as the age loop, storing `str(marks)`. -/
def marksLoop : List String → Option (Option String)
  | [] => none
  | s :: rest =>
    if s = "" then some none
    else
      match validate_marks s with
      | some _ => some (some ((pyFloatStr s).getD ""))
      | none => marksLoop rest

/-- Run the chosen field loops against one record, in source order
name–age–marks; returns the updated record and the `updated` flag. -/
def updateFields (st : Student) (c : UpdateChoice) (nameS ageS marksS : List String) :
    Option (Student × Bool) := do
  let (st1, u1) ←
    if c = .name ∨ c = .all then
      (nameLoop nameS).map (fun n => ({ st with name := n }, true))
    else some (st, false)
  let (st2, u2) ←
    if c = .age ∨ c = .all then
      (ageLoop ageS).map (fun r =>
        match r with
        | none => (st1, u1)
        | some v => ({ st1 with age := v }, true))
    else some (st1, u1)
  if c = .marks ∨ c = .all then
    (marksLoop marksS).map (fun r =>
      match r with
      | none => (st2, u2)
      | some v => ({ st2 with marks := v }, true))
  else some (st2, u2)

/-- Find the first exactly-matching record and apply `updateFields` to it:
`some none` = no match, `some (some (l, u))` = new store and updated flag. -/
def updateList (students : List Student) (roll : String) (c : UpdateChoice)
    (nameS ageS marksS : List String) : Option (Option (List Student × Bool)) :=
  match students with
  | [] => some none
  | st :: rest =>
    if st.roll_number = roll then
      match updateFields st c nameS ageS marksS with
      | none => none
      | some (st', u) => some (some (st' :: rest, u))
    else
      match updateList rest roll c nameS ageS marksS with
      | none => none
      | some none => some none
      | some (some (l, u)) => some (some (st :: l, u))

/-- The update operation's report. -/
inductive UpdateOutcome where
  | noRecords
  | emptyRoll
  | notFound
  | done (students : List Student) (updated : Bool)
deriving DecidableEq, Repr

/-- The update operation `update_student`: empty store and blank roll number return early
(lines 257–264); an unmatched roll number reports NotFound (lines 273–275);
otherwise the field loops run on the first matching record and the store is
saved iff a field was accepted (lines 336–340). -/
def update_student (students : List Student) (roll : String) (c : UpdateChoice)
    (nameS ageS marksS : List String) : Option UpdateOutcome :=
  if students = [] then some .noRecords
  else if roll = "" then some .emptyRoll
  else
    match updateList students roll c nameS ageS marksS with
    | none => none
    | some none => some .notFound
    | some (some (l, u)) => some (.done l u)

/-! ## The GUI dialog paths (`student_gui.py`)

`StudentDialog.save_student` (lines 655–691) strips the four entries,
validates them all, and only then sets `self.result`; any failure leaves
`result = None` and the dialog open.  Note the dialog always includes an
editable `roll_number` entry, pre-filled when editing. -/

/-- The dialog result: `none` when any validation fails (no record is built),
otherwise the normalized record of lines 679–684. -/
def save_student_dialog (rollE nameE ageE marksE : String) : Option Student :=
  if pyStrip rollE = "" then none
  else if pyStrip nameE = "" ∨ (pyStrip nameE).length < 2 then none
  else
    match parseInt (pyStrip ageE) with
    | none => none
    | some age =>
      if age < 1 ∨ 150 < age then none
      else
        match parseFloat (pyStrip marksE) with
        | none => none
        | some m =>
          if Decimal.lt m (.ofInt 0) ∨ Decimal.lt (.ofInt 100) m then none
          else
            some ⟨pyStrip rollE, pyTitle (pyStrip nameE), toString age,
              (pyFloatStr (pyStrip marksE)).getD ""⟩

/-- Replace the first record whose `roll_number` equals `roll` by `r`
(the in-place `student.update(dialog.result)` of line 469, which overwrites
all four fields including `roll_number`). -/
def replaceFirst : List Student → String → Student → List Student
  | [], _, _ => []
  | s :: rest, roll, r =>
    if s.roll_number = roll then r :: rest
    else s :: replaceFirst rest roll r

/-- The GUI edit path `StudentGUI.edit_student_dialog` (lines 450–472): the record selected by
`roll` is overwritten with the dialog result when the dialog validates;
otherwise nothing changes. -/
def edit_student_gui (students : List Student) (roll : String)
    (rollE nameE ageE marksE : String) : List Student :=
  match save_student_dialog rollE nameE ageE marksE with
  | none => students
  | some r => replaceFirst students roll r

/-- The GUI add path `StudentGUI.add_student_dialog` (lines 436–448): append the dialog result
unless a record with exactly the same `roll_number` exists (line 441,
case-sensitive `==`). -/
def add_student_gui (students : List Student) (rollE nameE ageE marksE : String) :
    List Student :=
  match save_student_dialog rollE nameE ageE marksE with
  | none => students
  | some r =>
    if students.any (fun s => s.roll_number = r.roll_number) then students
    else students ++ [r]

/-! ## CSV persistence (`save_data` lines 42–53, `load_data` lines 28–40)

`save_data` rewrites the whole file: for a non-empty store, a
`csv.DictWriter` header row followed by one row per record in order, fields
`roll_number, name, age, marks`; for an empty store the `open(..., 'w')`
truncates the file and nothing is written.  The csv module's default dialect
quotes a field iff it contains the delimiter, the quote character, or a
line-terminator character, doubles embedded quotes, and ends each row with
`"\r\n"`.  `load_data` reads the rows back with `csv.DictReader`, the first
row being the field names. -/

/-- Is `c` the field delimiter or part of the line terminator? -/
def isDelim (c : Char) : Bool :=
  c == ',' || c == '\r' || c == '\n'

/-- A field must be quoted iff it contains the delimiter, a quote, or a
line-terminator character (csv `QUOTE_MINIMAL`). -/
def needsQuote (f : List Char) : Bool :=
  f.any (fun c => c == '"' || isDelim c)

/-- Double every quote character (csv `doublequote=True`). -/
def escapeQuotes : List Char → List Char
  | [] => []
  | c :: cs =>
    if c = '"' then '"' :: '"' :: escapeQuotes cs
    else c :: escapeQuotes cs

/-- One serialized field. -/
def encodeField (f : List Char) : List Char :=
  if needsQuote f then '"' :: (escapeQuotes f ++ ['"']) else f

/-- One serialized row: fields joined by `','`, without the terminator. -/
def encodeRow : List (List Char) → List Char
  | [] => []
  | [f] => encodeField f
  | f :: fs => encodeField f ++ ',' :: encodeRow fs

/-- Serialized rows, each terminated by `"\r\n"` (the csv writer's default
`lineterminator`). -/
def encodeFile : List (List (List Char)) → List Char
  | [] => []
  | r :: rs => encodeRow r ++ '\r' :: '\n' :: encodeFile rs

/-- The fixed `fieldnames` of line 47. -/
def fieldnames : List String := ["roll_number", "name", "age", "marks"]

/-- A record's row in the writer's fixed field order. -/
def studentRow (s : Student) : List String :=
  [s.roll_number, s.name, s.age, s.marks]

/-- The full file content written by `save_data`: nothing at all for an empty
store (the `if self.students:` of line 46 — the file opened with mode `'w'`
is left truncated), otherwise the header row and one row per record in store
order. -/
def save_data (students : List Student) : String :=
  if students = [] then ""
  else ⟨encodeFile (((fieldnames :: students.map studentRow).map (·.map String.data)))⟩

/-- Parse an unquoted field: everything up to the next delimiter (quotes do
not occur in unquoted fields of writer output). -/
def parseUnquoted : List Char → List Char × List Char
  | [] => ([], [])
  | c :: rest =>
    if isDelim c then ([], c :: rest)
    else (c :: (parseUnquoted rest).1, (parseUnquoted rest).2)

/-- Parse the content of a quoted field after its opening quote: a doubled
quote is a literal quote, a lone quote closes the field. -/
def parseQuotedContent : List Char → List Char × List Char
  | [] => ([], [])
  | c :: rest =>
    if c = '"' then
      match rest with
      | [] => ([], [])
      | c2 :: rest2 =>
        if c2 = '"' then
          ('"' :: (parseQuotedContent rest2).1, (parseQuotedContent rest2).2)
        else ([], c2 :: rest2)
    else (c :: (parseQuotedContent rest).1, (parseQuotedContent rest).2)

/-- Parse one field: quoted iff it starts with a quote. -/
def parseField : List Char → List Char × List Char
  | [] => ([], [])
  | c :: rest =>
    if c = '"' then parseQuotedContent rest
    else parseUnquoted (c :: rest)

/-- Parse one row, given fuel bounding the number of fields: fields separated
by `','`, the row ended by `"\r\n"`, a bare `'\r'` or `'\n'`, or the end of
the input. -/
def parseRecordAux : Nat → List Char → List String × List Char
  | 0, l => ([], l)
  | fuel + 1, l =>
    let f : String := ⟨(parseField l).1⟩
    match (parseField l).2 with
    | [] => ([f], [])
    | c :: r =>
      if c = ',' then
        (f :: (parseRecordAux fuel r).1, (parseRecordAux fuel r).2)
      else if c = '\r' then
        match r with
        | [] => ([f], [])
        | c2 :: r2 => if c2 = '\n' then ([f], r2) else ([f], c2 :: r2)
      else if c = '\n' then ([f], r)
      else ([f], c :: r)

/-- Parse one row (a row of `n` fields consumes at least `n - 1` separators,
so the input length bounds the fuel). -/
def parseRecord (l : List Char) : List String × List Char :=
  parseRecordAux (l.length + 1) l

/-- Parse all rows, given fuel bounding the number of rows. -/
def parseRowsAux : Nat → List Char → List (List String)
  | 0, _ => []
  | _ + 1, [] => []
  | fuel + 1, l =>
    let p := parseRecord l
    p.1 :: parseRowsAux fuel p.2

/-- All rows of a file (every row spans at least one character, so the input
length bounds the fuel). -/
def parseRows (l : List Char) : List (List String) :=
  parseRowsAux l.length l

/-- A data row as a record (`csv.DictReader` zips the four field names of the
header written by `save_data` with the row's values). -/
def rowToStudent : List String → Option Student
  | [r, n, a, m] => some ⟨r, n, a, m⟩
  | _ => none

/-- The load operation `load_data` on a present, readable file: the first row is the header, each
following four-column row is one record. -/
def load_data (file : String) : List Student :=
  match parseRows file.data with
  | [] => []
  | _header :: rows => rows.filterMap rowToStudent

/-! ### The load operation's error handling (lines 28–40)

The body is one `try`: absence of the file is tested first and is not an
error; any exception while reading or parsing is caught, an error message is
shown, and the store is reset to empty — nothing propagates to the caller.
The input models the attempt to read the file: `none` when the file is
absent, `some (.ok content)` when it is read and decoded, `some (.error e)`
when reading or decoding raises (e.g. a corrupt, undecodable file). -/

/-- What `load_data` leaves behind: the store, the error message shown if an
exception was caught, and whether an exception escaped to the caller. -/
structure LoadResult where
  students : List Student
  errorShown : Option String
  raised : Bool
deriving DecidableEq, Repr

/-- The full load operation over the read attempt. -/
def load_data_full (file : Option (Except String String)) : LoadResult :=
  match file with
  | none => ⟨[], none, false⟩
  | some (.ok content) => ⟨load_data content, none, false⟩
  | some (.error e) => ⟨[], some ("Error loading data: " ++ e), false⟩

/-! ## Statistics (`display_statistics`, lines 390–422)

An empty store is reported ("No student records found!") before anything is
computed; otherwise one pass over `[float(s['marks']) for s in students]`
yields the count, the mean (`sum/total`), the extremes (`max`/`min`), and
the fixed seven-bucket grade distribution. -/

/-- The grade distribution dict of line 408, in its fixed key order. -/
def gradesInit : List (String × Nat) :=
  [("A+", 0), ("A", 0), ("B+", 0), ("B", 0), ("C", 0), ("D", 0), ("F", 0)]

/-- One histogram increment, `grades[grade] += 1`. -/
def bumpGrade (h : List (String × Nat)) (g : String) : List (String × Nat) :=
  h.map (fun p => if p.1 = g then (p.1, p.2 + 1) else p)

/-- The outcome of `display_statistics`: nothing for an empty store; `error`
if some stored `marks` string does not parse as a float (which would raise,
uncaught, at line 401); otherwise the computed statistics. -/
inductive StatsResult where
  | noRecords
  | error
  | stats (count : Nat) (mean : ℚ) (highest lowest : Decimal)
      (gradeDist : List (String × Nat))
deriving DecidableEq, Repr

/-- The statistics pass `display_statistics` over the store. -/
def display_statistics (students : List Student) : StatsResult :=
  if students = [] then .noRecords
  else
    match students.mapM (fun s => parseFloat s.marks) with
    | none => .error
    | some [] => .error
    | some (m :: ml) =>
      let total := students.length
      let sum := (m :: ml).foldl Decimal.add ⟨0, 0⟩
      .stats total (Decimal.toRat sum / (total : ℚ))
        (ml.foldl Decimal.vmax m) (ml.foldl Decimal.vmin m)
        ((m :: ml).foldl (fun h x => bumpGrade h (calculate_grade x)) gradesInit)

/-! ## Lemmas: the decimal order is the value order -/

/-- The cross-multiplication order agrees with the rational value order:
the decimal model's comparisons are Python's float comparisons. -/
theorem Decimal.le_iff_toRat (a b : Decimal) : Decimal.le a b ↔ toRat a ≤ toRat b := by
  unfold Decimal.le toRat
  rw [div_le_div_iff₀ (by positivity) (by positivity)]
  constructor
  · intro h
    exact_mod_cast h
  · intro h
    exact_mod_cast h

/-- Strict order version of `Decimal.le_iff_toRat`. -/
theorem Decimal.lt_iff_toRat (a b : Decimal) : Decimal.lt a b ↔ toRat a < toRat b := by
  have h := Decimal.le_iff_toRat b a
  unfold Decimal.le at h
  unfold Decimal.lt
  rw [← Int.not_le, h, not_le]

/-! ## Lemmas: the csv writer's output parses back to the written rows -/

/-- No delimiter character is a quote. -/
theorem isDelim_ne_quote {c : Char} (h : isDelim c = true) : c ≠ '"' := by
  intro hc
  subst hc
  simp [isDelim] at h

/-- Parsing quoted content undoes quote doubling, up to the closing quote. -/
theorem parseQuotedContent_escape (f rest : List Char) (h : ∀ r', rest ≠ '"' :: r') :
    parseQuotedContent (escapeQuotes f ++ '"' :: rest) = (f, rest) := by
  induction f with
  | nil =>
    cases rest with
    | nil => simp [escapeQuotes, parseQuotedContent]
    | cons c r =>
      have hc : c ≠ '"' := fun hc => h r (by rw [hc])
      simp [escapeQuotes, parseQuotedContent, hc]
  | cons c cs ih =>
    by_cases hc : c = '"'
    · subst hc
      simp only [escapeQuotes, if_pos rfl, List.cons_append]
      rw [parseQuotedContent.eq_def]
      simp [ih]
    · simp only [escapeQuotes, if_neg hc, List.cons_append]
      rw [parseQuotedContent.eq_def]
      simp [hc, ih]

/-- Parsing an unquoted delimiter-free field stops exactly at the delimiter. -/
theorem parseUnquoted_encode (f rest : List Char)
    (hf : ∀ c ∈ f, isDelim c = false)
    (hrest : rest = [] ∨ ∃ c r, rest = c :: r ∧ isDelim c = true) :
    parseUnquoted (f ++ rest) = (f, rest) := by
  induction f with
  | nil =>
    rcases hrest with h | ⟨c, r, rfl, hd⟩
    · subst h
      simp [parseUnquoted]
    · simp [parseUnquoted, hd]
  | cons c cs ih =>
    have hc : isDelim c = false := hf c (by simp)
    simp only [List.cons_append, parseUnquoted, hc]
    simp [ih (fun x hx => hf x (by simp [hx]))]

/-- A field that needs no quoting contains no quote and no delimiter. -/
theorem needsQuote_false {f : List Char} (hq : needsQuote f = false) :
    ∀ c ∈ f, c ≠ '"' ∧ isDelim c = false := by
  intro c hc
  unfold needsQuote at hq
  rw [List.any_eq_false] at hq
  have := hq c hc
  simp only [Bool.or_eq_true, beq_iff_eq, not_or] at this
  exact ⟨this.1, by simpa using this.2⟩

/-- Parsing one encoded field recovers it and leaves the delimiter. -/
theorem parseField_encode (f rest : List Char)
    (hrest : rest = [] ∨ ∃ c r, rest = c :: r ∧ isDelim c = true) :
    parseField (encodeField f ++ rest) = (f, rest) := by
  by_cases hq : needsQuote f = true
  · have hne : ∀ r', rest ≠ '"' :: r' := by
      rintro r' rfl
      rcases hrest with h | ⟨c, r, hc, hd⟩
      · exact List.noConfusion h
      · refine isDelim_ne_quote hd ?_
        injection hc with h1 _
        exact h1.symm
    simp only [encodeField, hq, if_pos, List.cons_append, List.append_assoc,
      List.singleton_append, parseField, if_pos rfl]
    exact parseQuotedContent_escape f rest hne
  · rw [Bool.not_eq_true] at hq
    have hf := needsQuote_false hq
    simp only [encodeField, hq, Bool.false_eq_true, if_false]
    cases f with
    | nil =>
      rcases hrest with h | ⟨c, r, rfl, hd⟩
      · subst h
        simp [parseField]
      · have : c ≠ '"' := isDelim_ne_quote hd
        simp [parseField, this, parseUnquoted, hd]
    | cons c cs =>
      have hcq : c ≠ '"' := (hf c (by simp)).1
      simp only [List.cons_append, parseField, if_neg hcq]
      rw [← List.cons_append]
      exact parseUnquoted_encode (c :: cs) rest (fun x hx => (hf x hx).2) hrest

/-- A row of `n` fields serializes to at least `n - 1` characters (the commas). -/
theorem encodeRow_length (row : List (List Char)) :
    row.length ≤ (encodeRow row).length + 1 := by
  induction row with
  | nil => simp [encodeRow]
  | cons f fs ih =>
    cases fs with
    | nil => simp [encodeRow]
    | cons f2 fs2 =>
      simp only [encodeRow, List.length_cons, List.length_append] at *
      omega

/-- A file of `n` rows spans at least `n` characters (the terminators). -/
theorem encodeFile_length (rows : List (List (List Char))) :
    rows.length ≤ (encodeFile rows).length := by
  induction rows with
  | nil => simp [encodeFile]
  | cons r rs ih =>
    simp only [encodeFile, List.length_cons, List.length_append] at *
    omega

/-- Parsing one encoded row (with enough fuel) recovers its fields and leaves
everything after the terminator. -/
theorem parseRecordAux_encode (row : List (List Char)) (fuel : Nat) (rest : List Char)
    (hrow : row ≠ []) (hfuel : row.length ≤ fuel) :
    parseRecordAux fuel (encodeRow row ++ '\r' :: '\n' :: rest) =
      (row.map (fun f => (⟨f⟩ : String)), rest) := by
  induction row generalizing fuel with
  | nil => exact absurd rfl hrow
  | cons f fs ih =>
    obtain ⟨k, rfl⟩ : ∃ k, fuel = k + 1 := by
      cases fuel with
      | zero => simp at hfuel
      | succ k => exact ⟨k, rfl⟩
    cases fs with
    | nil =>
      have hp := parseField_encode f ('\r' :: '\n' :: rest)
        (Or.inr ⟨'\r', '\n' :: rest, rfl, by decide⟩)
      simp only [encodeRow]
      rw [parseRecordAux.eq_def]
      simp [hp]
    | cons f2 fs2 =>
      have hshape : encodeRow (f :: f2 :: fs2) ++ '\r' :: '\n' :: rest =
          encodeField f ++ ',' :: (encodeRow (f2 :: fs2) ++ '\r' :: '\n' :: rest) := by
        simp [encodeRow]
      have hp := parseField_encode f (',' :: (encodeRow (f2 :: fs2) ++ '\r' :: '\n' :: rest))
        (Or.inr ⟨',', _, rfl, by decide⟩)
      rw [hshape, parseRecordAux.eq_def]
      simp only [hp]
      have ihr := ih k (by simp) (by simp only [List.length_cons] at hfuel ⊢; omega)
      simp [ihr]

/-- Parsing encoded rows (with enough fuel) recovers them all. -/
theorem parseRowsAux_encode (rows : List (List (List Char))) (fuel : Nat)
    (hrows : ∀ r ∈ rows, r ≠ []) (hfuel : rows.length ≤ fuel) :
    parseRowsAux fuel (encodeFile rows) =
      rows.map (fun r => r.map (fun f => (⟨f⟩ : String))) := by
  induction rows generalizing fuel with
  | nil =>
    cases fuel <;> simp [encodeFile, parseRowsAux]
  | cons r rs ih =>
    obtain ⟨k, rfl⟩ : ∃ k, fuel = k + 1 := by
      cases fuel with
      | zero => simp at hfuel
      | succ k => exact ⟨k, rfl⟩
    have hrec : parseRecord (encodeRow r ++ '\r' :: '\n' :: encodeFile rs) =
        (r.map (fun f => (⟨f⟩ : String)), encodeFile rs) := by
      unfold parseRecord
      refine parseRecordAux_encode r _ _ (hrows r (by simp)) ?_
      have h1 := encodeRow_length r
      simp only [List.length_append, List.length_cons]
      omega
    obtain ⟨c, l', hl⟩ : ∃ c l',
        encodeRow r ++ '\r' :: '\n' :: encodeFile rs = c :: l' := by
      cases henc : encodeRow r with
      | nil => exact ⟨'\r', '\n' :: encodeFile rs, by simp [henc]⟩
      | cons a as2 => exact ⟨a, as2 ++ '\r' :: '\n' :: encodeFile rs, by simp [henc]⟩
    have hstep : parseRowsAux (k + 1) (encodeFile (r :: rs)) =
        (parseRecord (c :: l')).1 :: parseRowsAux k (parseRecord (c :: l')).2 := by
      rw [show encodeFile (r :: rs) = encodeRow r ++ '\r' :: '\n' :: encodeFile rs from rfl,
        hl, parseRowsAux.eq_def]
    rw [hstep, ← hl, hrec]
    show _ :: parseRowsAux k (encodeFile rs) = _
    rw [ih k (fun x hx => hrows x (List.mem_cons_of_mem r hx))
      (by simp only [List.length_cons] at hfuel; omega)]
    simp

/-- Reassembling a string from its characters is the identity. -/
theorem mapmk_data (rs : List (List String)) :
    (rs.map (·.map String.data)).map (fun r => r.map (fun f => (⟨f⟩ : String))) = rs := by
  induction rs with
  | nil => simp
  | cons r rest ih =>
    simp only [List.map_cons, List.map_map, ih, List.cons.injEq, and_true]
    induction r with
    | nil => simp
    | cons s ss ihs => simp_all

/-- Reading back a record's row yields the record. -/
theorem filterMap_studentRow (l : List Student) :
    (l.map studentRow).filterMap rowToStudent = l := by
  induction l with
  | nil => simp
  | cons s rest ih => simp [studentRow, rowToStudent, ih]

/-- What a non-empty store's `save_data` output parses back to: the header
row followed by one four-column row per record, in store order. -/
theorem save_data_parses (l : List Student) (h : l ≠ []) :
    parseRows (save_data l).data = fieldnames :: l.map studentRow := by
  have hrows : ∀ r ∈ (fieldnames :: l.map studentRow).map (·.map String.data), r ≠ [] := by
    intro r hr
    simp only [List.map_cons, List.mem_cons, List.mem_map] at hr
    rcases hr with rfl | ⟨x, hx, rfl⟩
    · simp [fieldnames]
    · rcases hx with ⟨s, _, rfl⟩
      simp [studentRow]
  have hlen : ((fieldnames :: l.map studentRow).map (·.map String.data)).length ≤
      (encodeFile ((fieldnames :: l.map studentRow).map (·.map String.data))).length :=
    encodeFile_length _
  unfold save_data
  rw [if_neg h]
  show parseRows
    (encodeFile ((fieldnames :: l.map studentRow).map (·.map String.data))) = _
  rw [parseRows, parseRowsAux_encode _ _ hrows hlen]
  exact mapmk_data _

/-- The csv round-trip: for any non-empty store, the file written by
`save_data` loads back to exactly the same record list. -/
theorem load_save_roundtrip (l : List Student) (h : l ≠ []) :
    load_data (save_data l) = l := by
  unfold load_data
  rw [save_data_parses l h]
  exact filterMap_studentRow l

/-! ## Lemmas: lookup, update and dialog behaviour -/

/-- An integer as a decimal has its own rational value. -/
theorem Decimal.toRat_ofInt (n : Int) : (Decimal.ofInt n).toRat = (n : ℚ) := by
  simp [Decimal.ofInt, Decimal.toRat]

/-- A record built by the dialog carries the stripped roll-number entry. -/
theorem save_student_dialog_roll (rollE nameE ageE marksE : String) (r : Student)
    (h : save_student_dialog rollE nameE ageE marksE = some r) :
    r.roll_number = pyStrip rollE := by
  unfold save_student_dialog at h
  repeat' split at h
  all_goals first
    | exact Option.noConfusion h
    | (injection h with h1
       subst h1
       rfl)

/-- The dialog refuses to build a record when a field validator fails. -/
theorem save_student_dialog_invalid (rollE nameE ageE marksE : String)
    (h : validate_name nameE = false ∨ validate_age (pyStrip ageE) = none ∨
      validate_marks (pyStrip marksE) = none) :
    save_student_dialog rollE nameE ageE marksE = none := by
  unfold save_student_dialog
  split
  · rfl
  · split
    · rfl
    · rename_i hname
      simp only [not_or, not_lt] at hname
      rcases h with hn | ha | hm
      · exfalso
        unfold validate_name at hn
        simp only [decide_eq_false_iff_not, not_and, not_le, ne_eq,
          Decidable.not_not] at hn
        have := hn hname.1
        omega
      · unfold validate_age at ha
        split
        · rfl
        · rename_i age hage
          rw [hage] at ha
          simp only [Option.bind_eq_bind, Option.some_bind] at ha
          split
          · rfl
          · rename_i hrange
            rw [if_neg hrange] at ha
            exact Option.noConfusion ha
      · split
        · rfl
        · split
          · rfl
          · unfold validate_marks at hm
            split
            · rfl
            · rename_i m hmark
              rw [hmark] at hm
              simp only [Option.bind_eq_bind, Option.some_bind] at hm
              split
              · rfl
              · rename_i hrange
                rw [if_neg hrange] at hm
                exact Option.noConfusion hm

/-- The field loops of the CLI update leave `roll_number` untouched. -/
theorem updateFields_roll (st : Student) (c : UpdateChoice) (nS aS mS : List String)
    (st' : Student) (u : Bool) (h : updateFields st c nS aS mS = some (st', u)) :
    st'.roll_number = st.roll_number := by
  unfold updateFields at h
  rcases hn : nameLoop nS with _ | n <;>
    rcases ha : ageLoop aS with _ | (_ | av) <;>
      rcases hm : marksLoop mS with _ | (_ | mv) <;>
        cases c <;>
          simp [hn, ha, hm] at h <;>
            (obtain ⟨h1, h2⟩ := h
             rw [← h1])

/-- The CLI update rewrites the first matching record but never its
`roll_number`: the roll-number column is unchanged. -/
theorem updateList_roll_map (students : List Student) (roll : String) (c : UpdateChoice)
    (nS aS mS : List String) (l : List Student) (u : Bool)
    (h : updateList students roll c nS aS mS = some (some (l, u))) :
    l.map (·.roll_number) = students.map (·.roll_number) := by
  induction students generalizing l u with
  | nil => simp [updateList] at h
  | cons st rest ih =>
    unfold updateList at h
    split at h
    · rcases hf : updateFields st c nS aS mS with _ | ⟨st', u'⟩
      · rw [hf] at h
        exact Option.noConfusion h
      · rw [hf] at h
        simp only [Option.some.injEq, Option.some.injEq, Prod.mk.injEq] at h
        rw [← h.1]
        simp [updateFields_roll st c nS aS mS st' u' hf]
    · rcases hrec : updateList rest roll c nS aS mS with _ | (_ | ⟨l', u'⟩)
      · rw [hrec] at h
        exact Option.noConfusion h
      · rw [hrec] at h
        simp at h
      · rw [hrec] at h
        simp only [Option.some.injEq, Prod.mk.injEq] at h
        rw [← h.1]
        simp [ih l' u' hrec]

/-- With no exactly-matching record, the CLI update search reports no match. -/
theorem updateList_not_found (students : List Student) (roll : String) (c : UpdateChoice)
    (nS aS mS : List String) (h : ∀ s ∈ students, s.roll_number ≠ roll) :
    updateList students roll c nS aS mS = some none := by
  induction students with
  | nil => rfl
  | cons st rest ih =>
    unfold updateList
    rw [if_neg (h st (by simp)), ih (fun x hx => h x (by simp [hx]))]

/-- An age script whose non-blank entries all fail validation is either stuck
or keeps the current value. -/
theorem ageLoop_invalid (aS : List String)
    (h : ∀ s ∈ aS, s ≠ "" → validate_age s = none) :
    ageLoop aS = none ∨ ageLoop aS = some none := by
  induction aS with
  | nil => left; rfl
  | cons s rest ih =>
    unfold ageLoop
    split
    · right; rfl
    · rename_i hs
      rw [h s (by simp) hs]
      exact ih (fun x hx hxe => h x (by simp [hx]) hxe)

/-- A name script whose entries all fail validation leaves the name prompt
stuck: the name loop has no blank-skip, so it never accepts. -/
theorem nameLoop_invalid (nS : List String)
    (h : ∀ s ∈ nS, validate_name s = false) :
    nameLoop nS = none := by
  induction nS with
  | nil => rfl
  | cons s rest ih =>
    unfold nameLoop
    rw [if_neg (by simp [h s (by simp)])]
    exact ih (fun x hx => h x (by simp [hx]))

/-- A marks script whose non-blank entries all fail validation is either
stuck or keeps the current value. -/
theorem marksLoop_invalid (mS : List String)
    (h : ∀ s ∈ mS, s ≠ "" → validate_marks s = none) :
    marksLoop mS = none ∨ marksLoop mS = some none := by
  induction mS with
  | nil => left; rfl
  | cons s rest ih =>
    unfold marksLoop
    split
    · right; rfl
    · rename_i hs
      rw [h s (by simp) hs]
      exact ih (fun x hx hxe => h x (by simp [hx]) hxe)

/-- When every supplied input for each chosen field fails its validator, the
field update never changes the record and never sets the `updated` flag
(with an all-invalid name script the name prompt never completes, so no
result is produced at all). -/
theorem updateFields_invalid (st : Student) (c : UpdateChoice) (nS aS mS : List String)
    (hn : (c = .name ∨ c = .all) → ∀ s ∈ nS, validate_name s = false)
    (ha : (c = .age ∨ c = .all) → ∀ s ∈ aS, s ≠ "" → validate_age s = none)
    (hm : (c = .marks ∨ c = .all) → ∀ s ∈ mS, s ≠ "" → validate_marks s = none)
    (st' : Student) (u : Bool) (h : updateFields st c nS aS mS = some (st', u)) :
    st' = st ∧ u = false := by
  cases c with
  | name =>
    unfold updateFields at h
    simp [nameLoop_invalid nS (hn (Or.inl rfl))] at h
  | age =>
    unfold updateFields at h
    rcases ageLoop_invalid aS (ha (Or.inl rfl)) with h2 | h2 <;> simp [h2] at h
    exact ⟨h.1.symm, h.2⟩
  | marks =>
    unfold updateFields at h
    rcases marksLoop_invalid mS (hm (Or.inl rfl)) with h2 | h2 <;> simp [h2] at h
    exact ⟨h.1.symm, h.2⟩
  | all =>
    unfold updateFields at h
    simp [nameLoop_invalid nS (hn (Or.inr rfl))] at h

/-- When every supplied input for each chosen field fails its validator, the
CLI update leaves the store unchanged and reports that nothing was updated. -/
theorem updateList_invalid (students : List Student) (roll : String)
    (c : UpdateChoice) (nS aS mS : List String)
    (hn : (c = .name ∨ c = .all) → ∀ s ∈ nS, validate_name s = false)
    (ha : (c = .age ∨ c = .all) → ∀ s ∈ aS, s ≠ "" → validate_age s = none)
    (hm : (c = .marks ∨ c = .all) → ∀ s ∈ mS, s ≠ "" → validate_marks s = none)
    (l : List Student) (u : Bool)
    (h : updateList students roll c nS aS mS = some (some (l, u))) :
    l = students ∧ u = false := by
  induction students generalizing l u with
  | nil => simp [updateList] at h
  | cons st rest ih =>
    unfold updateList at h
    split at h
    · rcases hf : updateFields st c nS aS mS with _ | ⟨st', u'⟩
      · rw [hf] at h
        exact Option.noConfusion h
      · obtain ⟨rfl, rfl⟩ := updateFields_invalid st c nS aS mS hn ha hm st' u' hf
        rw [hf] at h
        simp only [Option.some.injEq, Prod.mk.injEq] at h
        exact ⟨h.1.symm, h.2.symm⟩
    · rcases hrec : updateList rest roll c nS aS mS with _ | (_ | ⟨l', u'⟩)
      · rw [hrec] at h
        exact Option.noConfusion h
      · rw [hrec] at h
        simp at h
      · obtain ⟨rfl, rfl⟩ := ih l' u' hrec
        rw [hrec] at h
        simp only [Option.some.injEq, Prod.mk.injEq] at h
        exact ⟨h.1.symm, h.2.symm⟩

/-- Deleting an absent roll number leaves the store unchanged and returns no
removed record. -/
theorem delete_not_found (students : List Student) (roll : String)
    (h : ∀ s ∈ students, s.roll_number ≠ roll) :
    delete_student students roll = (students, none) := by
  induction students with
  | nil => rfl
  | cons st rest ih =>
    unfold delete_student
    rw [if_neg (h st (by simp))]
    simp [ih (fun x hx => h x (by simp [hx]))]

/-- Deletion removes exactly the first exactly-matching record. -/
theorem delete_first (pre : List Student) (t : Student) (post : List Student)
    (roll : String) (ht : t.roll_number = roll)
    (hpre : ∀ s ∈ pre, s.roll_number ≠ roll) :
    delete_student (pre ++ t :: post) roll = (pre ++ post, some t) := by
  induction pre with
  | nil => simp [delete_student, ht]
  | cons p rest ih =>
    simp only [List.cons_append, delete_student]
    rw [if_neg (hpre p (by simp))]
    simp [ih (fun x hx => hpre x (by simp [hx]))]

/-- Replacing the first match by a record with the same roll number keeps the
roll-number column unchanged. -/
theorem replaceFirst_roll_map (students : List Student) (roll : String) (r : Student)
    (hr : r.roll_number = roll) :
    (replaceFirst students roll r).map (·.roll_number) =
      students.map (·.roll_number) := by
  induction students with
  | nil => rfl
  | cons st rest ih =>
    unfold replaceFirst
    split
    · rename_i hmatch
      simp [hr, hmatch]
    · simp [ih]

/-- The uniqueness validator succeeds exactly when no stored record carries
exactly the candidate roll number. -/
theorem validate_roll_number_iff (students : List Student) (roll : String) :
    validate_roll_number students roll = true ↔
      ∀ s ∈ students, s.roll_number ≠ roll := by
  unfold validate_roll_number
  simp [List.any_eq_true]

/-! ## Claim theorems -/

/-- Claim C1, counterexample: the duplicate check is case-sensitive, so a
candidate roll number that differs from a stored one only in letter case is
accepted by `validate_roll_number` and by `add`, which appends a second
record and grows the store — against the claim's case-insensitive reading. -/
theorem add_case_insensitive_dup_accepted :
    pyLower "a1" = pyLower "A1" ∧
    validate_roll_number [⟨"A1", "Bob", "20", "50.0"⟩] "a1" = true ∧
    add_student [⟨"A1", "Bob", "20", "50.0"⟩] "a1" "carl" "21" "85.5" =
      ([⟨"A1", "Bob", "20", "50.0"⟩, ⟨"a1", "Carl", "21", "85.5"⟩], none) ∧
    (add_student [⟨"A1", "Bob", "20", "50.0"⟩] "a1" "carl" "21" "85.5").1.length = 2 := by
  decide

/-- Claim C1, amended: `add` fails with DuplicateRoll and leaves the store
unchanged exactly for candidates matching an existing `roll_number`
case-SENSITIVELY (`==` at line 57 of the CLI and line 441 of the GUI), and
`validate_roll_number(candidate)` is true iff no existing record has exactly
that `roll_number`. -/
theorem duplicate_roll_exact_match (students : List Student)
    (roll name ageS marksS : String) (hne : roll ≠ "") :
    ((∃ s ∈ students, s.roll_number = roll) →
      add_student students roll name ageS marksS = (students, some .duplicateRoll)) ∧
    (validate_roll_number students roll = true ↔
      ∀ s ∈ students, s.roll_number ≠ roll) ∧
    ((∃ s ∈ students, s.roll_number = pyStrip roll) →
      add_student_gui students roll name ageS marksS = students) := by
  refine ⟨?_, validate_roll_number_iff students roll, ?_⟩
  · rintro ⟨s, hs, hroll⟩
    unfold add_student
    rw [if_neg (by simp [hne]), if_pos]
    intro hv
    exact (validate_roll_number_iff students roll).mp hv s hs hroll
  · rintro ⟨s, hs, hroll⟩
    unfold add_student_gui
    rcases hd : save_student_dialog roll name ageS marksS with _ | r
    · rfl
    · have hr : r.roll_number = pyStrip roll := save_student_dialog_roll _ _ _ _ r hd
      have hany : (students.any fun s => decide (s.roll_number = r.roll_number)) = true := by
        rw [List.any_eq_true]
        exact ⟨s, hs, by simp [hr, hroll]⟩
      simp [hany]

/-- Claim C1 witness: the amended theorem applied to a store holding roll
number `"A1"` and the exactly-equal candidate `"A1"`. -/
theorem duplicate_roll_exact_match_witness :
    add_student [⟨"A1", "Bob", "20", "50.0"⟩] "A1" "carl" "21" "85.5" =
      ([⟨"A1", "Bob", "20", "50.0"⟩], some .duplicateRoll) ∧
    (validate_roll_number [⟨"A1", "Bob", "20", "50.0"⟩] "A1" = true ↔
      ∀ s ∈ [(⟨"A1", "Bob", "20", "50.0"⟩ : Student)], s.roll_number ≠ "A1") ∧
    add_student_gui [⟨"A1", "Bob", "20", "50.0"⟩] "A1" "carl" "21" "85.5" =
      [⟨"A1", "Bob", "20", "50.0"⟩] :=
  ⟨(duplicate_roll_exact_match [⟨"A1", "Bob", "20", "50.0"⟩] "A1" "carl" "21" "85.5"
      (by decide)).1 (by decide),
   (duplicate_roll_exact_match [⟨"A1", "Bob", "20", "50.0"⟩] "A1" "carl" "21" "85.5"
      (by decide)).2.1,
   (duplicate_roll_exact_match [⟨"A1", "Bob", "20", "50.0"⟩] "A1" "carl" "21" "85.5"
      (by decide)).2.2 (by decide)⟩

/-- Claim C2, counterexample: the GUI edit dialog's `roll_number` entry is
editable and `student.update(dialog.result)` (line 469) overwrites all four
fields, so editing the roll-number entry from `"R1"` to `"R2"` changes the
stored record's `roll_number`. -/
theorem gui_edit_changes_roll :
    edit_student_gui [⟨"R1", "Alice", "20", "50.0"⟩] "R1" "R2" "Alice" "20" "50" =
      [⟨"R2", "Alice", "20", "50.0"⟩] ∧
    (⟨"R2", "Alice", "20", "50.0"⟩ : Student).roll_number ≠ "R1" := by
  decide

/-- Claim C2, amended: the CLI update operation never changes any record's
`roll_number` (only `name`, `age`, `marks` are written), and the GUI edit
dialog leaves the roll-number column unchanged whenever its roll entry still
holds the selected record's roll number — but the dialog result replaces all
four fields, so an edited roll entry does change `roll_number`. -/
theorem roll_number_immutable_cli (students : List Student) (roll : String)
    (c : UpdateChoice) (nS aS mS : List String) (rollE nameE ageE marksE : String) :
    (∀ l u, update_student students roll c nS aS mS = some (.done l u) →
      l.map (·.roll_number) = students.map (·.roll_number)) ∧
    (pyStrip rollE = roll →
      (edit_student_gui students roll rollE nameE ageE marksE).map (·.roll_number) =
        students.map (·.roll_number)) := by
  constructor
  · intro l u h
    unfold update_student at h
    split at h
    · simp at h
    · split at h
      · simp at h
      · rcases hrec : updateList students roll c nS aS mS with _ | (_ | ⟨l', u'⟩)
        · rw [hrec] at h
          exact Option.noConfusion h
        · rw [hrec] at h
          simp at h
        · rw [hrec] at h
          simp only [Option.some.injEq, UpdateOutcome.done.injEq] at h
          rw [← h.1]
          exact updateList_roll_map students roll c nS aS mS l' u' hrec
  · intro hre
    unfold edit_student_gui
    rcases hd : save_student_dialog rollE nameE ageE marksE with _ | r
    · rfl
    · have hr : r.roll_number = roll := by
        rw [save_student_dialog_roll _ _ _ _ r hd, hre]
      exact replaceFirst_roll_map students roll r hr

/-- Claim C2 witness: a name-only CLI update and a GUI edit with the roll
entry untouched both preserve the roll-number column. -/
theorem roll_number_immutable_cli_witness :
    (([⟨"R1", "Bob", "20", "50.0"⟩] : List Student).map (·.roll_number) =
      ([⟨"R1", "Alice", "20", "50.0"⟩] : List Student).map (·.roll_number)) ∧
    ((edit_student_gui [⟨"R1", "Alice", "20", "50.0"⟩] "R1" "R1" "Bo" "21" "60").map
        (·.roll_number) =
      ([⟨"R1", "Alice", "20", "50.0"⟩] : List Student).map (·.roll_number)) :=
  ⟨(roll_number_immutable_cli [⟨"R1", "Alice", "20", "50.0"⟩] "R1" .name ["Bob"] [] []
      "R1" "Bo" "21" "60").1 [⟨"R1", "Bob", "20", "50.0"⟩] true (by decide),
   (roll_number_immutable_cli [⟨"R1", "Alice", "20", "50.0"⟩] "R1" .name ["Bob"] [] []
      "R1" "Bo" "21" "60").2 (by decide)⟩

/-- Claim C3, counterexample: in the CLI update with "All details", the name
is written before the age prompt runs, so a request whose supplied age
`"200"` fails validation (and is then skipped with a blank) still commits
the name change — a partial update. -/
theorem cli_partial_update :
    validate_age "200" = none ∧
    update_student [⟨"R1", "Alice", "20", "50.0"⟩] "R1" .all ["Bob"] ["200", ""] [""] =
      some (.done [⟨"R1", "Bob", "20", "50.0"⟩] true) ∧
    (⟨"R1", "Bob", "20", "50.0"⟩ : Student) ≠ ⟨"R1", "Alice", "20", "50.0"⟩ := by
  decide

/-- Claim C3, amended: a failing field validator never commits the failing
field.  The GUI dialog commits nothing at all when any field fails; the CLI
update, for every choice of fields (name, age, marks, or all), leaves the
record and the store unchanged when every supplied input for each chosen
field fails validation (for the name field, which has no blank-skip, the
prompt then never completes, so in particular nothing is committed) — but
fields of the same request accepted before a failing one remain committed
(see the counterexample). -/
theorem update_validation_no_commit (students : List Student) (roll : String)
    (c : UpdateChoice) (nS aS mS : List String) (rollE nameE ageE marksE : String) :
    ((validate_name nameE = false ∨ validate_age (pyStrip ageE) = none ∨
        validate_marks (pyStrip marksE) = none) →
      edit_student_gui students roll rollE nameE ageE marksE = students) ∧
    (((c = .name ∨ c = .all) → ∀ s ∈ nS, validate_name s = false) →
     ((c = .age ∨ c = .all) → ∀ s ∈ aS, s ≠ "" → validate_age s = none) →
     ((c = .marks ∨ c = .all) → ∀ s ∈ mS, s ≠ "" → validate_marks s = none) →
      ∀ l u, update_student students roll c nS aS mS = some (.done l u) →
        l = students ∧ u = false) := by
  constructor
  · intro h
    unfold edit_student_gui
    rw [save_student_dialog_invalid rollE nameE ageE marksE h]
  · intro hn ha hm l u h
    unfold update_student at h
    split at h
    · simp at h
    · split at h
      · simp at h
      · rcases hrec : updateList students roll c nS aS mS with _ | (_ | ⟨l', u'⟩)
        · rw [hrec] at h
          exact Option.noConfusion h
        · rw [hrec] at h
          simp at h
        · rw [hrec] at h
          simp only [Option.some.injEq, UpdateOutcome.done.injEq] at h
          obtain ⟨rfl, rfl⟩ :=
            updateList_invalid students roll c nS aS mS hn ha hm l' u' hrec
          exact ⟨h.1.symm, h.2.symm⟩

/-- Claim C3 witness: the amended theorem at a one-record store, with an
invalid marks entry in the GUI dialog and an all-invalid marks script in the
marks-only CLI update. -/
theorem update_validation_no_commit_witness :
    edit_student_gui [⟨"R1", "Alice", "20", "50.0"⟩] "R1" "R1" "Alice" "20" "500" =
      [⟨"R1", "Alice", "20", "50.0"⟩] ∧
    (([⟨"R1", "Alice", "20", "50.0"⟩] : List Student) =
        [⟨"R1", "Alice", "20", "50.0"⟩] ∧ (false : Bool) = false) :=
  ⟨(update_validation_no_commit [⟨"R1", "Alice", "20", "50.0"⟩] "R1" .marks
      [] [] ["500", ""] "R1" "Alice" "20" "500").1 (by decide),
   (update_validation_no_commit [⟨"R1", "Alice", "20", "50.0"⟩] "R1" .marks
      [] [] ["500", ""] "R1" "Alice" "20" "500").2 (by decide) (by decide) (by decide)
      [⟨"R1", "Alice", "20", "50.0"⟩] false (by decide)⟩

/-- Claim C4: `calculate_grade` is a pure function of the marks value that
refines the spec's threshold table (inclusive lower bounds, highest first),
and the four boundary checks hold: `90 ↦ A+`, `89.999 ↦ A`, `40 ↦ D`,
`39.999 ↦ F`. -/
theorem grade_thresholds (m : Decimal)
    (_h0 : Decimal.le (.ofInt 0) m) (_h100 : Decimal.le m (.ofInt 100)) :
    calculate_grade m = grade_for_spec m.toRat ∧
    calculate_grade ⟨90, 0⟩ = "A+" ∧ calculate_grade ⟨89999, 3⟩ = "A" ∧
    calculate_grade ⟨40, 0⟩ = "D" ∧ calculate_grade ⟨39999, 3⟩ = "F" ∧
    (⟨89999, 3⟩ : Decimal).toRat = 89.999 ∧ (⟨39999, 3⟩ : Decimal).toRat = 39.999 := by
  have e : ∀ t : ℤ, ∀ x : ℚ, ((t : ℚ) = x) →
      (Decimal.le (.ofInt t) m ↔ x ≤ m.toRat) := by
    intro t x hx
    rw [Decimal.le_iff_toRat, Decimal.toRat_ofInt, hx]
  refine ⟨?_, by decide, by decide, by decide, by decide,
    by norm_num [Decimal.toRat], by norm_num [Decimal.toRat]⟩
  unfold calculate_grade grade_for_spec
  simp only [e 90 90 (by norm_num), e 80 80 (by norm_num), e 70 70 (by norm_num),
    e 60 60 (by norm_num), e 50 50 (by norm_num), e 40 40 (by norm_num)]

/-- Claim C4 witness: the threshold refinement applied at the in-range marks
value `85.5`. -/
theorem grade_thresholds_witness :
    calculate_grade ⟨855, 1⟩ = grade_for_spec (⟨855, 1⟩ : Decimal).toRat ∧
    calculate_grade ⟨90, 0⟩ = "A+" ∧ calculate_grade ⟨89999, 3⟩ = "A" ∧
    calculate_grade ⟨40, 0⟩ = "D" ∧ calculate_grade ⟨39999, 3⟩ = "F" ∧
    (⟨89999, 3⟩ : Decimal).toRat = 89.999 ∧ (⟨39999, 3⟩ : Decimal).toRat = 39.999 :=
  grade_thresholds ⟨855, 1⟩ (by decide) (by decide)

/-- Claim C5: `persist()` then `reload()` returns exactly the collection that
was in memory (list equality, hence equality as a set of records), for every
non-empty collection — no validity assumption is even needed, since the csv
writer quotes every delimiter, quote and newline and the reader undoes it. -/
theorem load_save_roundtrip_claim (l : List Student) (h : l ≠ []) :
    load_data (save_data l) = l :=
  load_save_roundtrip l h

/-- Claim C5 witness: the round-trip on a two-record store whose fields
exercise the csv quoting (comma, quote and newline inside values). -/
theorem load_save_roundtrip_claim_witness :
    load_data (save_data [⟨"R1", "Smith, \"Jr\"", "20", "50.0"⟩,
      ⟨"R2", "Bo\nb", "21", "60.0"⟩]) =
      [⟨"R1", "Smith, \"Jr\"", "20", "50.0"⟩, ⟨"R2", "Bo\nb", "21", "60.0"⟩] :=
  load_save_roundtrip_claim
    [⟨"R1", "Smith, \"Jr\"", "20", "50.0"⟩, ⟨"R2", "Bo\nb", "21", "60.0"⟩] (by decide)

/-- Claim C6, counterexample: a corrupted existing file (the read raises) is
caught inside `load_data` — the operation returns normally (`raised = false`)
with the store reset to empty, exactly the store absence produces; only the
shown error message differs.  Nothing propagates to the caller. -/
theorem load_corruption_not_propagated :
    load_data_full (some (.error "bad utf-8")) =
      ⟨[], some "Error loading data: bad utf-8", false⟩ ∧
    (load_data_full (some (.error "bad utf-8"))).raised = false ∧
    (load_data_full (some (.error "bad utf-8"))).students =
      (load_data_full none).students := by
  decide

/-- Claim C6, amended: a corrupted existing file is reported with an error
message — distinguishable from absence, which reports none — but the failure
is not propagated: `load_data` catches it and continues with an empty store,
just as when the file is absent. -/
theorem load_corruption_recovery (e : String) :
    load_data_full (some (.error e)) =
      ⟨[], some ("Error loading data: " ++ e), false⟩ ∧
    load_data_full none = ⟨[], none, false⟩ ∧
    (load_data_full (some (.error e))).errorShown ≠ (load_data_full none).errorShown := by
  refine ⟨rfl, rfl, ?_⟩
  simp [load_data_full]

/-- Claim C7, counterexample: `save_data` on the empty store truncates the
file and writes nothing — no header row is present, against the claim's
"header row present for every store state, including the empty store". -/
theorem persist_empty_no_header :
    save_data [] = "" ∧ parseRows (save_data []).data = [] := by
  decide

/-- Claim C7, amended: for every non-empty store, `persist` fully rewrites the
storage with tabular text that parses back to exactly the header row
`roll_number, name, age, marks` followed by one row per record in store
order and fixed column order; the empty store instead truncates the file to
empty content with no header row. -/
theorem persist_format (l : List Student) (h : l ≠ []) :
    parseRows (save_data l).data = fieldnames :: l.map studentRow ∧
    save_data [] = "" :=
  ⟨save_data_parses l h, rfl⟩

/-- Claim C7 witness: the format theorem at a one-record store. -/
theorem persist_format_witness :
    parseRows (save_data [⟨"R1", "Alice", "20", "50.0"⟩]).data =
      fieldnames :: [(⟨"R1", "Alice", "20", "50.0"⟩ : Student)].map studentRow ∧
    save_data [] = "" :=
  persist_format [⟨"R1", "Alice", "20", "50.0"⟩] (by decide)

/-- Claim C8: for valid inputs (unique roll number, name of stripped length
at least 2, age in `[1,150]`, marks in `[0,100]`), `add` appends exactly the
normalized record — name title-cased, age and marks as the string forms of
their validated values — and a subsequent search by roll number finds it
under any term equal case-insensitively to the roll number. -/
theorem add_find_roundtrip (students : List Student)
    (roll name ageS marksS : String) (a : Int) (m : Decimal)
    (hroll : roll ≠ "")
    (huniq : validate_roll_number students roll = true)
    (hname : validate_name name = true)
    (hage : validate_age ageS = some a)
    (hmarks : validate_marks marksS = some m) :
    add_student students roll name ageS marksS =
      (students ++ [mkStudent roll name a marksS], none) ∧
    (∀ term, pyLower term = pyLower roll →
      mkStudent roll name a marksS ∈
        search_by_roll (students ++ [mkStudent roll name a marksS]) term) ∧
    mkStudent roll name a marksS =
      ⟨roll, pyTitle name, toString a, (pyFloatStr marksS).getD ""⟩ := by
  refine ⟨?_, ?_, rfl⟩
  · unfold add_student
    rw [if_neg (by simp [hroll]), if_neg (not_not_intro huniq),
      if_neg (not_not_intro hname)]
    simp only [hage, hmarks]
  · intro term ht
    unfold search_by_roll
    apply List.mem_filter.mpr
    refine ⟨List.mem_append_right _ (by simp), ?_⟩
    simp [mkStudent, ht]

/-- Claim C8 witness: adding to the empty store with inputs whose normalized
forms differ from the raw ones (`"bob smith" ↦ "Bob Smith"`,
`"085.50" ↦ "85.5"`), then finding the record under `"R1"` and `"r1"`. -/
theorem add_find_roundtrip_witness :
    add_student [] "r1" "bob smith" "20" "085.50" =
      ([] ++ [mkStudent "r1" "bob smith" 20 "085.50"], none) ∧
    (∀ term, pyLower term = pyLower "r1" →
      mkStudent "r1" "bob smith" 20 "085.50" ∈
        search_by_roll ([] ++ [mkStudent "r1" "bob smith" 20 "085.50"]) term) ∧
    mkStudent "r1" "bob smith" 20 "085.50" =
      ⟨"r1", pyTitle "bob smith", toString (20 : Int), (pyFloatStr "085.50").getD ""⟩ :=
  add_find_roundtrip [] "r1" "bob smith" "20" "085.50" 20 ⟨8550, 2⟩
    (by decide) (by decide) (by decide) (by decide) (by decide)

/-- Claim C9: the statistics pass on the five-record collection with marks
`95, 87, 78, 92, 69` yields count 5, mean 84.2, maximum 95, minimum 69 and
grade histogram `A+: 2, A: 1, B+: 1, B: 1` with every other bucket 0; the
empty store is reported before anything is computed. -/
theorem statistics_demo :
    display_statistics
        [⟨"1", "A", "20", "95.0"⟩, ⟨"2", "B", "21", "87.0"⟩, ⟨"3", "C", "22", "78.0"⟩,
         ⟨"4", "D", "23", "92.0"⟩, ⟨"5", "E", "24", "69.0"⟩] =
      .stats 5 (84.2 : ℚ) ⟨950, 1⟩ ⟨690, 1⟩
        [("A+", 2), ("A", 1), ("B+", 1), ("B", 1), ("C", 0), ("D", 0), ("F", 0)] ∧
    (⟨950, 1⟩ : Decimal).toRat = 95 ∧ (⟨690, 1⟩ : Decimal).toRat = 69 ∧
    display_statistics [] = .noRecords := by
  refine ⟨?_, by norm_num [Decimal.toRat], by norm_num [Decimal.toRat], rfl⟩
  have hr : display_statistics
      [⟨"1", "A", "20", "95.0"⟩, ⟨"2", "B", "21", "87.0"⟩, ⟨"3", "C", "22", "78.0"⟩,
       ⟨"4", "D", "23", "92.0"⟩, ⟨"5", "E", "24", "69.0"⟩] =
      .stats 5 (Decimal.toRat ⟨42100000, 5⟩ / ((5 : ℕ) : ℚ)) ⟨950, 1⟩ ⟨690, 1⟩
        [("A+", 2), ("A", 1), ("B+", 1), ("B", 1), ("C", 0), ("D", 0), ("F", 0)] := by
    rfl
  have hm : Decimal.toRat ⟨42100000, 5⟩ / ((5 : ℕ) : ℚ) = 84.2 := by
    norm_num [Decimal.toRat]
  rw [hm] at hr
  exact hr

/-- Claim C10: update and delete locate their target only by case-sensitive
exact equality on `roll_number` (first match): with no exact match, delete
returns the store unchanged with nothing removed and update reports
NotFound, even when a record matches case-insensitively — which search by
roll number does find; and deletion removes exactly the first exact match. -/
theorem update_delete_case_sensitive (students : List Student) (roll : String)
    (hne : students ≠ []) (hr : roll ≠ "")
    (hnoexact : ∀ s ∈ students, s.roll_number ≠ roll)
    (hci : ∃ s ∈ students, pyLower s.roll_number = pyLower roll) :
    delete_student students roll = (students, none) ∧
    (∀ c nS aS mS, update_student students roll c nS aS mS = some .notFound) ∧
    search_by_roll students roll ≠ [] ∧
    (∀ pre t post, t.roll_number = roll → (∀ s ∈ pre, s.roll_number ≠ roll) →
      delete_student (pre ++ t :: post) roll = (pre ++ post, some t)) := by
  refine ⟨delete_not_found students roll hnoexact, ?_, ?_,
    fun pre t post ht hp => delete_first pre t post roll ht hp⟩
  · intro c nS aS mS
    unfold update_student
    rw [if_neg hne, if_neg hr,
      updateList_not_found students roll c nS aS mS hnoexact]
  · obtain ⟨s, hs, hlow⟩ := hci
    exact List.ne_nil_of_mem (List.mem_filter.mpr ⟨hs, by simp [search_by_roll, hlow]⟩)

/-- Claim C10 witness: a store holding roll number `"A1"` and the
case-insensitively equal argument `"a1"`: delete and update miss it, search
finds it, and the first-match deletion applied around an exact match. -/
theorem update_delete_case_sensitive_witness :
    delete_student [⟨"A1", "Bob", "20", "50.0"⟩] "a1" =
      ([⟨"A1", "Bob", "20", "50.0"⟩], none) ∧
    (∀ c nS aS mS, update_student [⟨"A1", "Bob", "20", "50.0"⟩] "a1" c nS aS mS =
      some .notFound) ∧
    search_by_roll [⟨"A1", "Bob", "20", "50.0"⟩] "a1" ≠ [] ∧
    (∀ pre t post, t.roll_number = "a1" → (∀ s ∈ pre, s.roll_number ≠ "a1") →
      delete_student (pre ++ t :: post) "a1" = (pre ++ post, some t)) :=
  update_delete_case_sensitive [⟨"A1", "Bob", "20", "50.0"⟩] "a1"
    (by decide) (by decide) (by decide) ⟨⟨"A1", "Bob", "20", "50.0"⟩, by decide, by decide⟩

end StudentMS
